import Mathlib

/-!
Verification of the recipe-management REST backend (Django + DRF).

The definitions below are a shallow embedding of `src/app/recipe/views.py`,
`src/app/recipe/serializers.py` and the user-model behaviour described by the
specification.  Database tables are lists of records, querysets are lists,
and the SQL effects of `filter`, `order_by` and `distinct` are modelled
explicitly.  Python exceptions (`ValueError` from `int`, `AttributeError`
from a missing module attribute) are modelled with `Except`.
-/

/-- Python exceptions relevant to the embedded code: `int()` raises
`ValueError`, a missing module attribute raises `AttributeError`. -/
inductive PyError : Type
  | valueError : PyError
  | attributeError : PyError
deriving DecidableEq

/-- ASCII whitespace stripped by Python `int(str)` before parsing. -/
def isPySpace (c : Char) : Bool :=
  c = ' ' || c = '\t' || c = '\n' || c = '\r' || c = Char.ofNat 11 || c = Char.ofNat 12

/-- Strip leading and trailing whitespace, as Python `int(str)` does. -/
def stripPySpace (l : List Char) : List Char :=
  ((l.dropWhile isPySpace).reverse.dropWhile isPySpace).reverse

/-- After the first digit of a Python integer literal: every further
character is a digit, with single underscores allowed between digits. -/
def pyDigitsTail : List Char → Bool
  | [] => true
  | '_' :: c :: rest => c.isDigit && pyDigitsTail rest
  | ['_'] => false
  | c :: rest => c.isDigit && pyDigitsTail rest

/-- A valid Python decimal digit sequence: nonempty, starts with a digit,
underscores only between digits. -/
def pyDigitsValid : List Char → Bool
  | [] => false
  | c :: rest => c.isDigit && pyDigitsTail rest

/-- Numeric value of a digit sequence (underscores ignored). -/
def digitsToNat (l : List Char) : Nat :=
  (l.filter (fun c => !(c == '_'))).foldl (fun acc c => 10 * acc + (c.toNat - 48)) 0

/-- Python `int(s)` on a string: strip whitespace, optional sign, decimal
digits; raises `ValueError` otherwise. -/
def pythonInt (s : String) : Except PyError Int :=
  match stripPySpace s.toList with
  | '+' :: rest =>
    if pyDigitsValid rest then .ok (digitsToNat rest : Int) else .error .valueError
  | '-' :: rest =>
    if pyDigitsValid rest then .ok (-(digitsToNat rest : Int)) else .error .valueError
  | l => if pyDigitsValid l then .ok (digitsToNat l : Int) else .error .valueError

/-- `[int(str_id) for str_id in qs.split(',')]` with `ValueError`
propagation: the elementwise conversion of a list of strings. -/
def map_int : List String → Except PyError (List Int)
  | [] => .ok []
  | s :: rest =>
    match pythonInt s with
    | .error e => .error e
    | .ok n =>
      match map_int rest with
      | .error e => .error e
      | .ok ns => .ok (n :: ns)

/-- Python `qs.split(',')` at the character level, keeping empty
segments; `acc` holds the reversed current segment. -/
def split_comma_chars : List Char → List Char → List (List Char)
  | [], acc => [acc.reverse]
  | c :: rest, acc =>
    if c = ',' then acc.reverse :: split_comma_chars rest []
    else split_comma_chars rest (c :: acc)

/-- Python `qs.split(',')`: the comma-separated segments of a string
(the empty string yields one empty segment). -/
def split_comma (s : String) : List String :=
  (split_comma_chars s.toList []).map String.mk

/-- `RecipeViewSet._params_to_ints` (views.py): split the query string on
commas and convert each segment with `int`. -/
def params_to_ints (qs : String) : Except PyError (List Int) :=
  map_int (split_comma qs)

/-- Python truthiness of an optional query parameter (`if tags:`):
`None` and the empty string are falsy. -/
def truthy : Option String → Bool
  | none => false
  | some s => !(s == "")

/-! ## Data model

`core/models.py` is not part of `src/`; the entity shapes below are
modelled from the spec's data-model table (Recipe, Tag, Ingredient, each
owned by a User, Recipe many-to-many with Tag and Ingredient) and from the
uses in `serializers.py`/`views.py`.  Decimal prices are modelled as
integers (fixed-point); ids and users are surrogate keys. -/

/-- A Tag record: id, owning user id, name. -/
structure Tag : Type where
  id : Nat
  user : Nat
  name : String
deriving DecidableEq

/-- An Ingredient record: id, owning user id, name. -/
structure Ingredient : Type where
  id : Nat
  user : Nat
  name : String
deriving DecidableEq

/-- A Recipe record with its many-to-many tag/ingredient id sets. -/
structure Recipe : Type where
  id : Nat
  user : Nat
  title : String
  time_minutes : Nat
  price : Int
  link : String
  description : String
  tags : List Nat
  ingredients : List Nat
deriving DecidableEq

/-- The relational store: one table per entity plus auto-increment
counters for primary keys. -/
structure DB : Type where
  recipes : List Recipe
  tags : List Tag
  ingredients : List Ingredient
  nextRecipeId : Nat
  nextTagId : Nat
  nextIngredientId : Nat
deriving DecidableEq

/-! ## `ORDER BY ... DESC` + `DISTINCT` -/

/-- Descending comparison through a key, the order used by
`order_by('-id')` / `order_by('-name')`. -/
def keyDesc {α β : Type} [LinearOrder β] (key : α → β) (a b : α) : Prop :=
  key b ≤ key a

instance {α β : Type} [LinearOrder β] (key : α → β) : DecidableRel (keyDesc key) :=
  fun a b => inferInstanceAs (Decidable (key b ≤ key a))

instance {α β : Type} [LinearOrder β] (key : α → β) : IsTotal α (keyDesc key) :=
  ⟨fun a b => le_total (key b) (key a)⟩

instance {α β : Type} [LinearOrder β] (key : α → β) : IsTrans α (keyDesc key) :=
  ⟨fun _ _ _ h1 h2 => le_trans h2 h1⟩

/-- `.order_by('-key').distinct()`: the distinct rows of the queryset,
sorted by descending key. -/
def order_desc_distinct {α β : Type} [DecidableEq α] [LinearOrder β]
    (key : α → β) (qs : List α) : List α :=
  List.insertionSort (keyDesc key) qs.dedup

/-! ## Queryset construction (views.py) -/

/-- `queryset.filter(tags__id__in=tag_ids)`: the SQL join with the
recipe-tag link table yields one row per (recipe, matching tag) pair, so a
recipe is repeated once per matching tag. -/
def filter_m2m_tags (qs : List Recipe) (ids : List Int) : List Recipe :=
  qs.flatMap (fun r => (r.tags.filter (fun tid => decide ((tid : Int) ∈ ids))).map (fun _ => r))

/-- `queryset.filter(ingredients__id__in=ingredient_ids)`: join with the
recipe-ingredient link table, one row per matching pair. -/
def filter_m2m_ingredients (qs : List Recipe) (ids : List Int) : List Recipe :=
  qs.flatMap (fun r => (r.ingredients.filter (fun iid => decide ((iid : Int) ∈ ids))).map (fun _ => r))

/-- The `if tags:` branch of `RecipeViewSet.get_queryset`: skip when the
parameter is absent or empty, otherwise parse it (propagating
`ValueError`) and apply the join filter. -/
def apply_tags_filter (qs : List Recipe) (tp : Option String) :
    Except PyError (List Recipe) :=
  if truthy tp then
    match params_to_ints (tp.getD "") with
    | .error e => .error e
    | .ok ids => .ok (filter_m2m_tags qs ids)
  else .ok qs

/-- The `if ingredients:` branch of `RecipeViewSet.get_queryset`. -/
def apply_ingredients_filter (qs : List Recipe) (ip : Option String) :
    Except PyError (List Recipe) :=
  if truthy ip then
    match params_to_ints (ip.getD "") with
    | .error e => .error e
    | .ok ids => .ok (filter_m2m_ingredients qs ids)
  else .ok qs

/-- `RecipeViewSet.get_queryset`: optional tag/ingredient id filters, then
`filter(user=self.request.user).order_by('-id').distinct()`. -/
def recipe_get_queryset (db : DB) (u : Nat) (tp ip : Option String) :
    Except PyError (List Recipe) :=
  match apply_tags_filter db.recipes tp with
  | .error e => .error e
  | .ok qs =>
    match apply_ingredients_filter qs ip with
    | .error e => .error e
    | .ok qs2 =>
      .ok (order_desc_distinct Recipe.id (qs2.filter (fun r => r.user == u)))

/-- `int(self.request.query_params.get('assigned_only', 0))`: the default
`0` is already an int; a present parameter goes through Python `int`. -/
def parse_assigned_only : Option String → Except PyError Int
  | none => .ok 0
  | some s => pythonInt s

/-- `Tag.objects.filter(recipe__isnull=False)`: inner join with the
recipe-tag link table, one row per (tag, recipe that uses it) pair. -/
def tags_assigned_join (db : DB) (qs : List Tag) : List Tag :=
  qs.flatMap (fun t => (db.recipes.filter (fun r => decide (t.id ∈ r.tags))).map (fun _ => t))

/-- `Ingredient.objects.filter(recipe__isnull=False)`. -/
def ingredients_assigned_join (db : DB) (qs : List Ingredient) : List Ingredient :=
  qs.flatMap (fun i => (db.recipes.filter (fun r => decide (i.id ∈ r.ingredients))).map (fun _ => i))

/-- `BaseRecipeViewSet.get_queryset` instantiated at `TagViewSet`:
optional `assigned_only` filter, then
`filter(user=self.request.user).order_by('-name').distinct()`. -/
def tag_get_queryset (db : DB) (u : Nat) (assignedOnly : Option String) :
    Except PyError (List Tag) :=
  match parse_assigned_only assignedOnly with
  | .error e => .error e
  | .ok n =>
    let qs := db.tags
    let qs := if n ≠ 0 then tags_assigned_join db qs else qs
    .ok (order_desc_distinct Tag.name (qs.filter (fun t => t.user == u)))

/-- `BaseRecipeViewSet.get_queryset` instantiated at `IngredientViewSet`. -/
def ingredient_get_queryset (db : DB) (u : Nat) (assignedOnly : Option String) :
    Except PyError (List Ingredient) :=
  match parse_assigned_only assignedOnly with
  | .error e => .error e
  | .ok n =>
    let qs := db.ingredients
    let qs := if n ≠ 0 then ingredients_assigned_join db qs else qs
    .ok (order_desc_distinct Ingredient.name (qs.filter (fun i => i.user == u)))

/-! ## Serializer layer (serializers.py)

`RecipeSerializer.Meta.fields = ["id", "title", "time_minutes", "price",
"link", "tags"]` with `id` read-only, and `RecipeDetailSerializer` adds
`description`.  The module declares a nested `tags` field but no
`ingredients` field and no `user` field, so a DRF `ModelSerializer` drops
those keys from `validated_data`. -/

/-- A request body for recipe create/update, before validation.  Inline
tags and ingredients are lists of names (`{"name": ...}` objects); `user`
and `id` model a client trying to set those keys. -/
structure RawRecipePayload : Type where
  title : Option String := none
  time_minutes : Option Nat := none
  price : Option Int := none
  link : Option String := none
  description : Option String := none
  tags : Option (List String) := none
  ingredients : Option (List String) := none
  user : Option Nat := none
  id : Option Nat := none
deriving DecidableEq

/-- `validated_data` of `RecipeDetailSerializer`: exactly the declared
writable fields (Meta.fields plus `description`, minus read-only `id`). -/
structure ValidatedRecipeData : Type where
  title : Option String
  time_minutes : Option Nat
  price : Option Int
  link : Option String
  description : Option String
  tags : Option (List String)
deriving DecidableEq

/-- DRF deserialization for `RecipeDetailSerializer`: keys that are not
declared writable fields (`ingredients`, `user`, read-only `id`) are
silently dropped. -/
def to_internal_value (p : RawRecipePayload) : ValidatedRecipeData :=
  { title := p.title
    time_minutes := p.time_minutes
    price := p.price
    link := p.link
    description := p.description
    tags := p.tags }

/-- `Tag.objects.get_or_create(user=auth_user, name=name)`: reuse the
first record matching (user, name), else insert a fresh one. -/
def get_or_create_tag (db : DB) (u : Nat) (name : String) : Tag × DB :=
  match db.tags.find? (fun t => t.user == u && t.name == name) with
  | some t => (t, db)
  | none =>
    let t : Tag := { id := db.nextTagId, user := u, name := name }
    (t, { db with tags := db.tags ++ [t], nextTagId := db.nextTagId + 1 })

/-- `recipe.tags.add(tag_obj)`: a many-to-many add is idempotent. -/
def m2m_add (ids : List Nat) (i : Nat) : List Nat :=
  if i ∈ ids then ids else ids ++ [i]

/-- `RecipeSerializer._get_or_create_tags`: for each inline tag name,
get-or-create the tag for the authenticated user and add it to the
recipe's tag set. -/
def get_or_create_tags (names : List String) (u : Nat) (r : Recipe) (db : DB) :
    Recipe × DB :=
  match names with
  | [] => (r, db)
  | n :: rest =>
    let (t, db1) := get_or_create_tag db u n
    get_or_create_tags rest u { r with tags := m2m_add r.tags t.id } db1

/-- `Recipe.objects.create(**validated_data)` field assembly: absent
optional fields take the model defaults; the many-to-many sets start
empty; `user` is supplied by `perform_create`. -/
def new_recipe (db : DB) (u : Nat) (vd : ValidatedRecipeData) : Recipe :=
  { id := db.nextRecipeId
    user := u
    title := vd.title.getD ""
    time_minutes := vd.time_minutes.getD 0
    price := vd.price.getD 0
    link := vd.link.getD ""
    description := vd.description.getD ""
    tags := []
    ingredients := [] }

/-- `RecipeSerializer.create`: pop `tags` (default `[]`), create the
recipe row, then get-or-create the inline tags.  No other key of
`validated_data` is relation-valued, so the remaining fields are scalar
columns of the new row. -/
def recipe_serializer_create (db : DB) (u : Nat) (vd : ValidatedRecipeData) :
    Recipe × DB :=
  let names := vd.tags.getD []
  let r := new_recipe db u vd
  let db1 := { db with nextRecipeId := db.nextRecipeId + 1 }
  let (r2, db2) := get_or_create_tags names u r db1
  (r2, { db2 with recipes := db2.recipes ++ [r2] })

/-- The `setattr` loop of `RecipeSerializer.update` over the remaining
(scalar) keys of `validated_data` after `tags` was popped. -/
def set_attrs (r : Recipe) (vd : ValidatedRecipeData) : Recipe :=
  { r with
    title := vd.title.getD r.title
    time_minutes := vd.time_minutes.getD r.time_minutes
    price := vd.price.getD r.price
    link := vd.link.getD r.link
    description := vd.description.getD r.description }

/-- `instance.save()`: write the updated row back by primary key. -/
def save_recipe (db : DB) (r : Recipe) : DB :=
  { db with recipes := db.recipes.map (fun x => if x.id == r.id then r else x) }

/-- `RecipeSerializer.update`: pop `tags`; when the key was present
(`tags is not None`) clear the association set and re-resolve the given
names; then `setattr` the scalar fields and save. -/
def recipe_serializer_update (db : DB) (u : Nat) (inst : Recipe)
    (vd : ValidatedRecipeData) : Recipe × DB :=
  let step : Recipe × DB :=
    match vd.tags with
    | none => (inst, db)
    | some names => get_or_create_tags names u { inst with tags := [] } db
  let inst2 := set_attrs step.1 vd
  (inst2, save_recipe step.2 inst2)

/-! ## View layer (views.py + the DRF generic-view machinery it relies on)

DRF's `ListModelMixin` renders `get_queryset()`; the detail mixins call
`get_object()`, which looks the url `pk` up **inside** `get_queryset()`
and raises `Http404` when it is not there.  An exception that no handler
catches (`ValueError` from `int`, `AttributeError`) becomes a 500
response.  Status codes are modelled as naturals. -/

/-- `self.get_object()` given the evaluated queryset: the record whose
primary key matches the url. -/
def get_object {α : Type} (idOf : α → Nat) (qs : List α) (pk : Nat) : Option α :=
  qs.find? (fun x => idOf x == pk)

/-- `GET /recipe/recipes/` (list action). -/
def recipe_list_view (db : DB) (u : Nat) (tp ip : Option String) :
    Nat × List Recipe :=
  match recipe_get_queryset db u tp ip with
  | .error _ => (500, [])
  | .ok l => (200, l)

/-- `GET /recipe/recipes/{pk}/` (retrieve action). -/
def recipe_retrieve_view (db : DB) (u pk : Nat) (tp ip : Option String) :
    Nat × Option Recipe :=
  match recipe_get_queryset db u tp ip with
  | .error _ => (500, none)
  | .ok qs =>
    match get_object Recipe.id qs pk with
    | none => (404, none)
    | some r => (200, some r)

/-- `DELETE /recipe/recipes/{pk}/` (destroy action): 404 when the object
is not in the user-scoped queryset, else delete the row. -/
def recipe_destroy_view (db : DB) (u pk : Nat) (tp ip : Option String) :
    Nat × DB :=
  match recipe_get_queryset db u tp ip with
  | .error _ => (500, db)
  | .ok qs =>
    match get_object Recipe.id qs pk with
    | none => (404, db)
    | some r => (204, { db with recipes := db.recipes.filter (fun x => !(x.id == r.id)) })

/-- `PATCH`/`PUT /recipe/recipes/{pk}/` (update actions): 404 when the
object is not in the user-scoped queryset, else deserialize and run
`RecipeSerializer.update`. -/
def recipe_update_view (db : DB) (u pk : Nat) (tp ip : Option String)
    (p : RawRecipePayload) : Nat × DB :=
  match recipe_get_queryset db u tp ip with
  | .error _ => (500, db)
  | .ok qs =>
    match get_object Recipe.id qs pk with
    | none => (404, db)
    | some r => (200, (recipe_serializer_update db u r (to_internal_value p)).2)

/-- `POST /recipe/recipes/` (create action): `perform_create` saves the
serializer with `user=self.request.user`. -/
def recipe_create_view (db : DB) (u : Nat) (p : RawRecipePayload) :
    Nat × Recipe × DB :=
  let (r, db2) := recipe_serializer_create db u (to_internal_value p)
  (201, r, db2)

/-- `PATCH /recipe/tags/{pk}/`: `TagSerializer` has the single writable
field `name`. -/
def tag_update_view (db : DB) (u pk : Nat) (assignedOnly : Option String)
    (newName : String) : Nat × DB :=
  match tag_get_queryset db u assignedOnly with
  | .error _ => (500, db)
  | .ok qs =>
    match get_object Tag.id qs pk with
    | none => (404, db)
    | some t =>
      let t2 : Tag := { t with name := newName }
      (200, { db with tags := db.tags.map (fun x => if x.id == t.id then t2 else x) })

/-- `DELETE /recipe/tags/{pk}/`. -/
def tag_destroy_view (db : DB) (u pk : Nat) (assignedOnly : Option String) :
    Nat × DB :=
  match tag_get_queryset db u assignedOnly with
  | .error _ => (500, db)
  | .ok qs =>
    match get_object Tag.id qs pk with
    | none => (404, db)
    | some t => (204, { db with tags := db.tags.filter (fun x => !(x.id == t.id)) })

/-- `PATCH /recipe/ingredients/{pk}/`. -/
def ingredient_update_view (db : DB) (u pk : Nat) (assignedOnly : Option String)
    (newName : String) : Nat × DB :=
  match ingredient_get_queryset db u assignedOnly with
  | .error _ => (500, db)
  | .ok qs =>
    match get_object Ingredient.id qs pk with
    | none => (404, db)
    | some i =>
      let i2 : Ingredient := { i with name := newName }
      (200, { db with ingredients := db.ingredients.map (fun x => if x.id == i.id then i2 else x) })

/-- `DELETE /recipe/ingredients/{pk}/`. -/
def ingredient_destroy_view (db : DB) (u pk : Nat) (assignedOnly : Option String) :
    Nat × DB :=
  match ingredient_get_queryset db u assignedOnly with
  | .error _ => (500, db)
  | .ok qs =>
    match get_object Ingredient.id qs pk with
    | none => (404, db)
    | some i => (204, { db with ingredients := db.ingredients.filter (fun x => !(x.id == i.id)) })

/-! ## The upload-image action -/

/-- The class names the module `recipe/serializers.py` actually defines
(its four top-level classes). -/
def recipe_serializers_module : List String :=
  ["TagSerializer", "IngredientSerializer", "RecipeSerializer", "RecipeDetailSerializer"]

/-- `RecipeViewSet.get_serializer_class`: the attribute access
`serializers.RecipeImageSerializer` raises `AttributeError` when the
module does not define that class. -/
def get_serializer_class (action : String) : Except PyError String :=
  if action == "list" then .ok "RecipeSerializer"
  else if action == "upload_image" then
    (if recipe_serializers_module.contains "RecipeImageSerializer" then
      .ok "RecipeImageSerializer"
    else .error .attributeError)
  else .ok "RecipeDetailSerializer"

/-- A multipart body for the upload-image action.  `imageValid` abstracts
whether the uploaded file is a valid image (the serializer that would
judge it does not exist in the module). -/
structure ImagePayload : Type where
  image : Option String
  imageValid : Bool
deriving DecidableEq

/-- `POST /recipe/recipes/{pk}/upload-image/`: `get_object`, then
`self.get_serializer(...)`, whose `get_serializer_class` call raises; a
serializer that did exist would answer 200 on a valid image and 400 with
field errors otherwise. -/
def upload_image_view (db : DB) (u pk : Nat) (p : ImagePayload) : Nat :=
  match recipe_get_queryset db u none none with
  | .error _ => 500
  | .ok qs =>
    match get_object Recipe.id qs pk with
    | none => 404
    | some _ =>
      match get_serializer_class "upload_image" with
      | .error _ => 500
      | .ok _ => if p.imageValid then 200 else 400

/-! ## User model -/

/-- A stored user account (the fields the user-creation claims need). -/
structure User : Type where
  email : String
  password : String
deriving DecidableEq

/-- Split a character list at the **last** occurrence of `c`:
`rsplit(c, 1)`.  `none` when `c` does not occur. -/
def rsplitAt (c : Char) : List Char → Option (List Char × List Char)
  | [] => none
  | x :: xs =>
    match rsplitAt c xs with
    | some (l, r) => some (x :: l, r)
    | none => if x = c then some ([], xs) else none

/-- Modelled from the spec: `core/models.py` (the custom user manager) is
not under `src/`; the spec requires the stored email "normalized (domain
lower-cased)", i.e. the part after the last `@` is lower-cased and the
local part kept as given; an email without `@` is left unchanged. -/
def normalize_email (email : String) : String :=
  match rsplitAt '@' email.toList with
  | none => email
  | some (l, d) => String.mk (l ++ '@' :: d.map Char.toLower)

/-- Modelled from the spec: `UserManager.create_user` is not under
`src/`; the spec requires the email ("email required") — an empty email
raises `ValueError` — and stores the normalized email.  Passwords are
kept abstract (hashing is out of the claims' scope). -/
def create_user (email password : String) : Except PyError User :=
  if email = "" then .error .valueError
  else .ok { email := normalize_email email, password := password }

/-! ## Concrete stores and payloads (used by the closed witnesses) -/

/-- A store with two users: recipes 1 and 3 belong to user 1, recipe 2 to
user 2; tag 1 is attached to recipes 1 and 2, tag 2 to recipes 1 and 3,
tag 3 to none; ingredient 4 to recipe 1, ingredient 5 to none. -/
def dbW : DB where
  recipes := [
    { id := 1, user := 1, title := "A", time_minutes := 1, price := 0,
      link := "", description := "", tags := [1, 2], ingredients := [4] },
    { id := 2, user := 2, title := "B", time_minutes := 2, price := 0,
      link := "", description := "", tags := [1], ingredients := [] },
    { id := 3, user := 1, title := "C", time_minutes := 3, price := 0,
      link := "", description := "", tags := [2], ingredients := [] }]
  tags := [
    { id := 1, user := 1, name := "Lunch" },
    { id := 2, user := 1, name := "Vegan" },
    { id := 3, user := 1, name := "Unused" }]
  ingredients := [
    { id := 4, user := 1, name := "Salt" },
    { id := 5, user := 1, name := "Pepper" }]
  nextRecipeId := 4
  nextTagId := 6
  nextIngredientId := 6

/-- An empty store. -/
def emptyDB : DB where
  recipes := []
  tags := []
  ingredients := []
  nextRecipeId := 1
  nextTagId := 1
  nextIngredientId := 1

/-- A store holding one recipe of user 1 with tag 7 and ingredient 5
attached. -/
def dbPepper : DB where
  recipes := [
    { id := 10, user := 1, title := "T", time_minutes := 1, price := 0,
      link := "", description := "", tags := [7], ingredients := [5] }]
  tags := [{ id := 7, user := 1, name := "Dinner" }]
  ingredients := [{ id := 5, user := 1, name := "Pepper" }]
  nextRecipeId := 11
  nextTagId := 8
  nextIngredientId := 6

/-- The recipe-API test payload with inline tag and ingredient objects
(`test_create_recipe_with_new_ingredients`). -/
def payloadNested : RawRecipePayload where
  title := some "Pounded Yam and Efo Riro"
  time_minutes := some 45
  price := some 9999
  description := some "Delicious meal"
  tags := some ["Lunch", "Heavy"]
  ingredients := some ["Yam", "Locust Beans"]

/-! ## Lemmas about the queryset combinators -/

theorem order_desc_distinct_nodup {α β : Type} [DecidableEq α] [LinearOrder β]
    (key : α → β) (qs : List α) : (order_desc_distinct key qs).Nodup :=
  ((List.perm_insertionSort (keyDesc key) qs.dedup).nodup_iff).mpr (List.nodup_dedup qs)

theorem order_desc_distinct_sorted {α β : Type} [DecidableEq α] [LinearOrder β]
    (key : α → β) (qs : List α) :
    List.Pairwise (fun a b => key b ≤ key a) (order_desc_distinct key qs) :=
  List.sorted_insertionSort (keyDesc key) qs.dedup

theorem mem_order_desc_distinct {α β : Type} [DecidableEq α] [LinearOrder β]
    {key : α → β} {qs : List α} {a : α} :
    a ∈ order_desc_distinct key qs ↔ a ∈ qs := by
  unfold order_desc_distinct
  rw [(List.perm_insertionSort (keyDesc key) qs.dedup).mem_iff]
  exact List.mem_dedup

theorem count_order_desc_distinct {α β : Type} [DecidableEq α] [LinearOrder β]
    {key : α → β} {qs : List α} {a : α} (h : a ∈ qs) :
    (order_desc_distinct key qs).count a = 1 := by
  unfold order_desc_distinct
  rw [(List.perm_insertionSort (keyDesc key) qs.dedup).count_eq]
  exact List.count_eq_one_of_mem (List.nodup_dedup qs) (List.mem_dedup.mpr h)

theorem pythonInt_error_eq {s : String} {e : PyError}
    (h : pythonInt s = .error e) : e = PyError.valueError := by
  unfold pythonInt at h
  split at h <;> split at h <;> simp_all

theorem map_int_error_of_mem {l : List String} {seg : String}
    (hm : seg ∈ l) (he : pythonInt seg = .error PyError.valueError) :
    map_int l = .error PyError.valueError := by
  induction l with
  | nil => cases hm
  | cons a rest ih =>
    rcases List.mem_cons.mp hm with h | h
    · subst h
      simp [map_int, he]
    · unfold map_int
      cases ha : pythonInt a with
      | error e => rw [pythonInt_error_eq ha]
      | ok n => rw [ih h]

theorem map_int_ok_of_all {l : List String}
    (h : ∀ seg ∈ l, ∃ n, pythonInt seg = .ok n) :
    ∃ ns, map_int l = .ok ns := by
  induction l with
  | nil => exact ⟨[], rfl⟩
  | cons a rest ih =>
    obtain ⟨n, hn⟩ := h a (List.mem_cons_self a rest)
    obtain ⟨ns, hns⟩ := ih (fun seg hs => h seg (List.mem_cons_of_mem a hs))
    exact ⟨n :: ns, by simp [map_int, hn, hns]⟩

theorem mem_filter_m2m_tags {qs : List Recipe} {ids : List Int} {r : Recipe}
    (h : r ∈ filter_m2m_tags qs ids) : r ∈ qs := by
  unfold filter_m2m_tags at h
  obtain ⟨a, ha, hr⟩ := List.mem_flatMap.mp h
  obtain ⟨_, _, rfl⟩ := List.mem_map.mp hr
  exact ha

theorem mem_filter_m2m_ingredients {qs : List Recipe} {ids : List Int} {r : Recipe}
    (h : r ∈ filter_m2m_ingredients qs ids) : r ∈ qs := by
  unfold filter_m2m_ingredients at h
  obtain ⟨a, ha, hr⟩ := List.mem_flatMap.mp h
  obtain ⟨_, _, rfl⟩ := List.mem_map.mp hr
  exact ha

theorem mem_apply_tags_filter {qs qs' : List Recipe} {tp : Option String}
    (h : apply_tags_filter qs tp = .ok qs') {r : Recipe} (hr : r ∈ qs') : r ∈ qs := by
  unfold apply_tags_filter at h
  split at h
  · split at h
    · cases h
    · cases h
      exact mem_filter_m2m_tags hr
  · cases h
    exact hr

theorem mem_apply_ingredients_filter {qs qs' : List Recipe} {ip : Option String}
    (h : apply_ingredients_filter qs ip = .ok qs') {r : Recipe} (hr : r ∈ qs') : r ∈ qs := by
  unfold apply_ingredients_filter at h
  split at h
  · split at h
    · cases h
    · cases h
      exact mem_filter_m2m_ingredients hr
  · cases h
    exact hr

/-- Every row of the evaluated recipe queryset is a stored recipe of the
requesting user. -/
theorem mem_recipe_get_queryset {db : DB} {u : Nat} {tp ip : Option String}
    {l : List Recipe} (h : recipe_get_queryset db u tp ip = .ok l)
    {r : Recipe} (hr : r ∈ l) : r ∈ db.recipes ∧ r.user = u := by
  unfold recipe_get_queryset at h
  split at h
  · cases h
  case _ qs h1 =>
    split at h
    · cases h
    case _ qs2 h2 =>
      cases h
      have hm := mem_order_desc_distinct.mp hr
      have hf := List.mem_filter.mp hm
      refine ⟨mem_apply_tags_filter h1 (mem_apply_ingredients_filter h2 hf.1), ?_⟩
      exact beq_iff_eq.mp hf.2

/-- Membership in the tag/recipe join: exactly the tags attached to at
least one recipe. -/
theorem mem_tags_assigned_join {db : DB} {qs : List Tag} {t : Tag} :
    t ∈ tags_assigned_join db qs ↔ t ∈ qs ∧ ∃ r ∈ db.recipes, t.id ∈ r.tags := by
  unfold tags_assigned_join
  constructor
  · intro h
    obtain ⟨a, ha, ht⟩ := List.mem_flatMap.mp h
    obtain ⟨r, hrm, rfl⟩ := List.mem_map.mp ht
    have := List.mem_filter.mp hrm
    exact ⟨ha, r, this.1, of_decide_eq_true this.2⟩
  · rintro ⟨ht, r, hr, hid⟩
    refine List.mem_flatMap.mpr ⟨t, ht, List.mem_map.mpr ⟨r, ?_, rfl⟩⟩
    exact List.mem_filter.mpr ⟨hr, decide_eq_true hid⟩

theorem mem_ingredients_assigned_join {db : DB} {qs : List Ingredient} {i : Ingredient} :
    i ∈ ingredients_assigned_join db qs ↔
      i ∈ qs ∧ ∃ r ∈ db.recipes, i.id ∈ r.ingredients := by
  unfold ingredients_assigned_join
  constructor
  · intro h
    obtain ⟨a, ha, ht⟩ := List.mem_flatMap.mp h
    obtain ⟨r, hrm, rfl⟩ := List.mem_map.mp ht
    have := List.mem_filter.mp hrm
    exact ⟨ha, r, this.1, of_decide_eq_true this.2⟩
  · rintro ⟨ht, r, hr, hid⟩
    refine List.mem_flatMap.mpr ⟨i, ht, List.mem_map.mpr ⟨r, ?_, rfl⟩⟩
    exact List.mem_filter.mpr ⟨hr, decide_eq_true hid⟩

/-- Evaluating the tag queryset at `assigned_only=1`. -/
theorem tag_get_queryset_assigned (db : DB) (u : Nat) :
    tag_get_queryset db u (some "1") =
      .ok (order_desc_distinct Tag.name
        ((tags_assigned_join db db.tags).filter (fun t => t.user == u))) := rfl

/-- Evaluating the ingredient queryset at `assigned_only=1`. -/
theorem ingredient_get_queryset_assigned (db : DB) (u : Nat) :
    ingredient_get_queryset db u (some "1") =
      .ok (order_desc_distinct Ingredient.name
        ((ingredients_assigned_join db db.ingredients).filter (fun i => i.user == u))) := rfl

/-- Every row of the evaluated tag queryset is a stored tag of the
requesting user. -/
theorem mem_tag_get_queryset {db : DB} {u : Nat} {ao : Option String}
    {l : List Tag} (h : tag_get_queryset db u ao = .ok l)
    {t : Tag} (ht : t ∈ l) : t ∈ db.tags ∧ t.user = u := by
  unfold tag_get_queryset at h
  split at h
  · cases h
  · cases h
    have hm := List.mem_filter.mp (mem_order_desc_distinct.mp ht)
    refine ⟨?_, beq_iff_eq.mp hm.2⟩
    rcases hm with ⟨hq, -⟩
    split at hq
    · exact (mem_tags_assigned_join.mp hq).1
    · exact hq

/-- Every row of the evaluated ingredient queryset is a stored ingredient
of the requesting user. -/
theorem mem_ingredient_get_queryset {db : DB} {u : Nat} {ao : Option String}
    {l : List Ingredient} (h : ingredient_get_queryset db u ao = .ok l)
    {i : Ingredient} (hi : i ∈ l) : i ∈ db.ingredients ∧ i.user = u := by
  unfold ingredient_get_queryset at h
  split at h
  · cases h
  · cases h
    have hm := List.mem_filter.mp (mem_order_desc_distinct.mp hi)
    refine ⟨?_, beq_iff_eq.mp hm.2⟩
    rcases hm with ⟨hq, -⟩
    split at hq
    · exact (mem_ingredients_assigned_join.mp hq).1
    · exact hq

/-! ## Frame lemmas for the serializer operations -/

/-- `get_or_create_tag` only touches the tag table and its counter. -/
theorem get_or_create_tag_frame (db : DB) (u : Nat) (name : String) :
    (get_or_create_tag db u name).2.recipes = db.recipes
    ∧ (get_or_create_tag db u name).2.ingredients = db.ingredients := by
  unfold get_or_create_tag
  split <;> exact ⟨rfl, rfl⟩

/-- `_get_or_create_tags` changes only the recipe's tag set and the tag
table: every other recipe field and the recipe/ingredient tables are
untouched. -/
theorem get_or_create_tags_frame (names : List String) (u : Nat) (r : Recipe) (db : DB) :
    (get_or_create_tags names u r db).1.id = r.id
    ∧ (get_or_create_tags names u r db).1.user = r.user
    ∧ (get_or_create_tags names u r db).1.title = r.title
    ∧ (get_or_create_tags names u r db).1.time_minutes = r.time_minutes
    ∧ (get_or_create_tags names u r db).1.price = r.price
    ∧ (get_or_create_tags names u r db).1.link = r.link
    ∧ (get_or_create_tags names u r db).1.description = r.description
    ∧ (get_or_create_tags names u r db).1.ingredients = r.ingredients
    ∧ (get_or_create_tags names u r db).2.recipes = db.recipes
    ∧ (get_or_create_tags names u r db).2.ingredients = db.ingredients := by
  induction names generalizing r db with
  | nil => exact ⟨rfl, rfl, rfl, rfl, rfl, rfl, rfl, rfl, rfl, rfl⟩
  | cons n rest ih =>
    have hf := get_or_create_tag_frame db u n
    rcases hG : get_or_create_tag db u n with ⟨t, db1⟩
    rw [hG] at hf
    have h2 := ih { r with tags := m2m_add r.tags t.id } db1
    simp only [get_or_create_tags, hG]
    exact ⟨h2.1, h2.2.1, h2.2.2.1, h2.2.2.2.1, h2.2.2.2.2.1, h2.2.2.2.2.2.1,
      h2.2.2.2.2.2.2.1, h2.2.2.2.2.2.2.2.1,
      h2.2.2.2.2.2.2.2.2.1.trans hf.1, h2.2.2.2.2.2.2.2.2.2.trans hf.2⟩

/-- Writing back a row whose key matches a stored row `r` preserves any
per-row observation `f` that agrees on the replacement, provided primary
keys are unique. -/
theorem save_map_eq {γ : Type} (f : Recipe → γ) {l : List Recipe} {r r2 : Recipe}
    (hmem : r ∈ l) (hnodup : (l.map Recipe.id).Nodup)
    (hid : r2.id = r.id) (hf : f r2 = f r) :
    (l.map (fun x => if x.id == r2.id then r2 else x)).map f = l.map f := by
  rw [List.map_map]
  refine List.map_congr_left (fun x hx => ?_)
  by_cases hxi : x.id = r2.id
  · have hxr : x = r := List.inj_on_of_nodup_map hnodup hx hmem (by rw [hxi, hid])
    subst hxr
    simp [Function.comp, beq_iff_eq, hxi, hf]
  · simp [Function.comp, beq_iff_eq, hxi]

/-! ## Claim theorems -/

/-- C5: for every authenticated recipe list or detail request, every
recipe contained in the response is owned by the requesting user; no
recipe owned by another user is ever exposed. -/
theorem recipe_responses_scoped_to_requesting_user
    (db : DB) (u : Nat) (tp ip : Option String) (pk : Nat) :
    (∀ r ∈ (recipe_list_view db u tp ip).2, r.user = u)
    ∧ (∀ r : Recipe, (recipe_retrieve_view db u pk tp ip).2 = some r → r.user = u) := by
  constructor
  · intro r hr
    rcases hq : recipe_get_queryset db u tp ip with e | l
    · simp [recipe_list_view, hq] at hr
    · simp only [recipe_list_view, hq] at hr
      exact (mem_recipe_get_queryset hq hr).2
  · intro r hr
    rcases hq : recipe_get_queryset db u tp ip with e | l
    · simp [recipe_retrieve_view, hq] at hr
    · rcases hobj : get_object Recipe.id l pk with _ | x
      · simp [recipe_retrieve_view, hq, hobj] at hr
      · simp only [recipe_retrieve_view, hq, hobj, Option.some.injEq] at hr
        subst hr
        exact (mem_recipe_get_queryset hq (List.mem_of_find?_eq_some hobj)).2

/-- C5 witness: at the concrete two-user store, the list response for
user 1 and the detail response for recipe 1 contain only user 1's data. -/
theorem recipe_responses_scoped_witness :
    (⟨2, 2, "B", 2, 0, "", "", [1], []⟩ : Recipe) ∉ (recipe_list_view dbW 1 none none).2
    ∧ ∀ r : Recipe, (recipe_retrieve_view dbW 1 1 none none).2 = some r → r.user = 1 := by
  have h := recipe_responses_scoped_to_requesting_user dbW 1 none none 1
  constructor
  · intro hmem
    have := h.1 _ hmem
    simp at this
  · exact h.2

/-- C7: every list result is deduplicated and sorted by descending id
(recipes) or descending name (tags, ingredients), for any combination of
comma-separated id filters and `assigned_only`. -/
theorem list_results_distinct_and_desc_sorted
    (db : DB) (u : Nat) (tp ip ao : Option String) :
    (∀ l, recipe_get_queryset db u tp ip = .ok l →
        l.Nodup ∧ List.Pairwise (fun a b => b.id ≤ a.id) l)
    ∧ (∀ l, tag_get_queryset db u ao = .ok l →
        l.Nodup ∧ List.Pairwise (fun a b => b.name ≤ a.name) l)
    ∧ (∀ l, ingredient_get_queryset db u ao = .ok l →
        l.Nodup ∧ List.Pairwise (fun a b => b.name ≤ a.name) l) := by
  refine ⟨?_, ?_, ?_⟩
  · intro l h
    unfold recipe_get_queryset at h
    split at h
    · cases h
    · split at h
      · cases h
      · cases h
        exact ⟨order_desc_distinct_nodup _ _, order_desc_distinct_sorted _ _⟩
  · intro l h
    unfold tag_get_queryset at h
    split at h
    · cases h
    · cases h
      exact ⟨order_desc_distinct_nodup _ _, order_desc_distinct_sorted _ _⟩
  · intro l h
    unfold ingredient_get_queryset at h
    split at h
    · cases h
    · cases h
      exact ⟨order_desc_distinct_nodup _ _, order_desc_distinct_sorted _ _⟩

/-- C7 witness: filtering by `tags=1,2` matches recipe 1 through two of
its tags, yet the result lists recipes 3 and 1 once each, in descending
id order; tags under `assigned_only=1` come once each in descending name
order. -/
theorem list_results_distinct_witness :
    ((recipe_list_view dbW 1 (some "1,2") none).2.Nodup
      ∧ List.Pairwise (fun a b => Recipe.id b ≤ Recipe.id a)
          (recipe_list_view dbW 1 (some "1,2") none).2)
    ∧ ((recipe_list_view dbW 1 (some "1,2") none).2.map Recipe.id = [3, 1]) := by
  have h := list_results_distinct_and_desc_sorted dbW 1 (some "1,2") none none
  obtain ⟨l, hl⟩ : ∃ l, recipe_get_queryset dbW 1 (some "1,2") none = .ok l := ⟨_, rfl⟩
  refine ⟨?_, by decide⟩
  have := h.1 l hl
  simpa [recipe_list_view, hl] using this

/-- C3: under `assigned_only=1`, a tag/ingredient list excludes every
item attached to zero recipes, includes every item of the user attached
to at least one recipe, and contains each matching item exactly once even
when it is attached to several recipes. -/
theorem assigned_only_filter_correct (db : DB) (u : Nat)
    (lt : List Tag) (li : List Ingredient)
    (hT : tag_get_queryset db u (some "1") = .ok lt)
    (hI : ingredient_get_queryset db u (some "1") = .ok li) :
    (∀ t : Tag, (∀ r ∈ db.recipes, t.id ∉ r.tags) → t ∉ lt)
    ∧ (∀ t ∈ db.tags, t.user = u → (∃ r ∈ db.recipes, t.id ∈ r.tags) → lt.count t = 1)
    ∧ (∀ i : Ingredient, (∀ r ∈ db.recipes, i.id ∉ r.ingredients) → i ∉ li)
    ∧ (∀ i ∈ db.ingredients, i.user = u →
        (∃ r ∈ db.recipes, i.id ∈ r.ingredients) → li.count i = 1) := by
  rw [tag_get_queryset_assigned db u, Except.ok.injEq] at hT
  rw [ingredient_get_queryset_assigned db u, Except.ok.injEq] at hI
  subst hT
  subst hI
  refine ⟨?_, ?_, ?_, ?_⟩
  · intro t hzero hmem
    have h1 := List.mem_filter.mp (mem_order_desc_distinct.mp hmem)
    obtain ⟨-, r, hr, hid⟩ := mem_tags_assigned_join.mp h1.1
    exact hzero r hr hid
  · intro t htdb htu ⟨r, hr, hid⟩
    refine count_order_desc_distinct (List.mem_filter.mpr ?_)
    exact ⟨mem_tags_assigned_join.mpr ⟨htdb, r, hr, hid⟩, beq_iff_eq.mpr htu⟩
  · intro i hzero hmem
    have h1 := List.mem_filter.mp (mem_order_desc_distinct.mp hmem)
    obtain ⟨-, r, hr, hid⟩ := mem_ingredients_assigned_join.mp h1.1
    exact hzero r hr hid
  · intro i hidb hiu ⟨r, hr, hid⟩
    refine count_order_desc_distinct (List.mem_filter.mpr ?_)
    exact ⟨mem_ingredients_assigned_join.mpr ⟨hidb, r, hr, hid⟩, beq_iff_eq.mpr hiu⟩

/-- C3 witness: in the two-user store, tag 1 ("Lunch") is attached to two
recipes yet appears once, and the unattached tag 3 ("Unused") and
ingredient 5 ("Pepper") are excluded; ingredient 4 ("Salt") appears
once. -/
theorem assigned_only_filter_witness :
    (⟨3, 1, "Unused"⟩ : Tag) ∉ (order_desc_distinct Tag.name
        ((tags_assigned_join dbW dbW.tags).filter (fun t => t.user == 1)))
    ∧ (order_desc_distinct Tag.name
        ((tags_assigned_join dbW dbW.tags).filter (fun t => t.user == 1))).count
          ⟨1, 1, "Lunch"⟩ = 1
    ∧ (⟨5, 1, "Pepper"⟩ : Ingredient) ∉ (order_desc_distinct Ingredient.name
        ((ingredients_assigned_join dbW dbW.ingredients).filter (fun i => i.user == 1)))
    ∧ (order_desc_distinct Ingredient.name
        ((ingredients_assigned_join dbW dbW.ingredients).filter (fun i => i.user == 1))).count
          ⟨4, 1, "Salt"⟩ = 1 := by
  have h := assigned_only_filter_correct dbW 1 _ _
    (tag_get_queryset_assigned dbW 1) (ingredient_get_queryset_assigned dbW 1)
  refine ⟨h.1 _ (by decide), ?_, h.2.2.1 _ (by decide), ?_⟩
  · exact h.2.1 ⟨1, 1, "Lunch"⟩ (by decide) rfl
      ⟨⟨1, 1, "A", 1, 0, "", "", [1, 2], [4]⟩, by decide, by decide⟩
  · exact h.2.2.2 ⟨4, 1, "Salt"⟩ (by decide) rfl
      ⟨⟨1, 1, "A", 1, 0, "", "", [1, 2], [4]⟩, by decide, by decide⟩

/-- A recipe of another user is never found by `get_object` on the
user-scoped queryset (primary keys assumed unique). -/
theorem recipe_get_object_cross_user_none {db : DB} {u : Nat} {tp ip : Option String}
    {l : List Recipe} {r : Recipe} {pk : Nat}
    (hq : recipe_get_queryset db u tp ip = .ok l)
    (hnodup : (db.recipes.map Recipe.id).Nodup)
    (hr : r ∈ db.recipes) (hid : r.id = pk) (hu : r.user ≠ u) :
    get_object Recipe.id l pk = none := by
  cases hfind : get_object Recipe.id l pk with
  | none => rfl
  | some x =>
    exfalso
    unfold get_object at hfind
    have hxl := List.mem_of_find?_eq_some hfind
    have hxid0 := @List.find?_some _ (fun y => y.id == pk) x l hfind
    have hxid : x.id = pk := beq_iff_eq.mp hxid0
    obtain ⟨hxdb, hxu⟩ := mem_recipe_get_queryset hq hxl
    have hxr : x = r := List.inj_on_of_nodup_map hnodup hxdb hr (by rw [hxid, hid])
    exact hu (hxr ▸ hxu)

/-- A tag of another user is never found by `get_object` on the
user-scoped queryset. -/
theorem tag_get_object_cross_user_none {db : DB} {u : Nat} {ao : Option String}
    {l : List Tag} {t : Tag} {pk : Nat}
    (hq : tag_get_queryset db u ao = .ok l)
    (hnodup : (db.tags.map Tag.id).Nodup)
    (ht : t ∈ db.tags) (hid : t.id = pk) (hu : t.user ≠ u) :
    get_object Tag.id l pk = none := by
  cases hfind : get_object Tag.id l pk with
  | none => rfl
  | some x =>
    exfalso
    unfold get_object at hfind
    have hxl := List.mem_of_find?_eq_some hfind
    have hxid0 := @List.find?_some _ (fun y => y.id == pk) x l hfind
    have hxid : x.id = pk := beq_iff_eq.mp hxid0
    obtain ⟨hxdb, hxu⟩ := mem_tag_get_queryset hq hxl
    have hxr : x = t := List.inj_on_of_nodup_map hnodup hxdb ht (by rw [hxid, hid])
    exact hu (hxr ▸ hxu)

/-- An ingredient of another user is never found by `get_object` on the
user-scoped queryset. -/
theorem ingredient_get_object_cross_user_none {db : DB} {u : Nat} {ao : Option String}
    {l : List Ingredient} {i : Ingredient} {pk : Nat}
    (hq : ingredient_get_queryset db u ao = .ok l)
    (hnodup : (db.ingredients.map Ingredient.id).Nodup)
    (hi : i ∈ db.ingredients) (hid : i.id = pk) (hu : i.user ≠ u) :
    get_object Ingredient.id l pk = none := by
  cases hfind : get_object Ingredient.id l pk with
  | none => rfl
  | some x =>
    exfalso
    unfold get_object at hfind
    have hxl := List.mem_of_find?_eq_some hfind
    have hxid0 := @List.find?_some _ (fun y => y.id == pk) x l hfind
    have hxid : x.id = pk := beq_iff_eq.mp hxid0
    obtain ⟨hxdb, hxu⟩ := mem_ingredient_get_queryset hq hxl
    have hxr : x = i := List.inj_on_of_nodup_map hnodup hxdb hi (by rw [hxid, hid])
    exact hu (hxr ▸ hxu)

/-- C6: an authenticated request that retrieves, updates or deletes a
recipe, tag or ingredient owned by a **different** user answers 404 (not
403) and leaves the store completely unchanged, provided primary keys are
unique and the list filters of the request parse. -/
theorem cross_user_actions_not_found_and_unchanged
    (db : DB) (u pk : Nat) (tp ip ao : Option String)
    (p : RawRecipePayload) (nm : String)
    (hRid : (db.recipes.map Recipe.id).Nodup)
    (hTid : (db.tags.map Tag.id).Nodup)
    (hIid : (db.ingredients.map Ingredient.id).Nodup) :
    (∀ r ∈ db.recipes, r.id = pk → r.user ≠ u →
      ∀ l, recipe_get_queryset db u tp ip = .ok l →
        recipe_retrieve_view db u pk tp ip = (404, none)
        ∧ recipe_update_view db u pk tp ip p = (404, db)
        ∧ recipe_destroy_view db u pk tp ip = (404, db))
    ∧ (∀ t ∈ db.tags, t.id = pk → t.user ≠ u →
      ∀ l, tag_get_queryset db u ao = .ok l →
        tag_update_view db u pk ao nm = (404, db)
        ∧ tag_destroy_view db u pk ao = (404, db))
    ∧ (∀ i ∈ db.ingredients, i.id = pk → i.user ≠ u →
      ∀ l, ingredient_get_queryset db u ao = .ok l →
        ingredient_update_view db u pk ao nm = (404, db)
        ∧ ingredient_destroy_view db u pk ao = (404, db)) := by
  refine ⟨?_, ?_, ?_⟩
  · intro r hr hid hu l hq
    have hnone := recipe_get_object_cross_user_none hq hRid hr hid hu
    exact ⟨by simp [recipe_retrieve_view, hq, hnone],
      by simp [recipe_update_view, hq, hnone],
      by simp [recipe_destroy_view, hq, hnone]⟩
  · intro t ht hid hu l hq
    have hnone := tag_get_object_cross_user_none hq hTid ht hid hu
    exact ⟨by simp [tag_update_view, hq, hnone],
      by simp [tag_destroy_view, hq, hnone]⟩
  · intro i hi hid hu l hq
    have hnone := ingredient_get_object_cross_user_none hq hIid hi hid hu
    exact ⟨by simp [ingredient_update_view, hq, hnone],
      by simp [ingredient_destroy_view, hq, hnone]⟩

/-- C6 witness: user 2 retrieving, patching or deleting user 1's recipe 1,
tag 1 or ingredient 4 in the concrete store gets 404 and changes
nothing. -/
theorem cross_user_actions_witness :
    (recipe_retrieve_view dbW 2 1 none none = (404, none)
      ∧ recipe_update_view dbW 2 1 none none { title := some "stolen" } = (404, dbW)
      ∧ recipe_destroy_view dbW 2 1 none none = (404, dbW))
    ∧ (tag_update_view dbW 2 1 none "stolen" = (404, dbW)
      ∧ tag_destroy_view dbW 2 1 none = (404, dbW))
    ∧ (ingredient_update_view dbW 2 4 none "stolen" = (404, dbW)
      ∧ ingredient_destroy_view dbW 2 4 none = (404, dbW)) := by
  have h := cross_user_actions_not_found_and_unchanged dbW 2 1 none none none
    { title := some "stolen" } "stolen" (by decide) (by decide) (by decide)
  have h4 := cross_user_actions_not_found_and_unchanged dbW 2 4 none none none
    { title := some "stolen" } "stolen" (by decide) (by decide) (by decide)
  refine ⟨h.1 ⟨1, 1, "A", 1, 0, "", "", [1, 2], [4]⟩ (by decide) rfl (by decide) _ rfl,
    h.2.1 ⟨1, 1, "Lunch"⟩ (by decide) rfl (by decide) _ rfl,
    h4.2.2 ⟨4, 1, "Salt"⟩ (by decide) rfl (by decide) _ rfl⟩

/-- C10: an absent or empty `tags`/`ingredients` parameter skips the id
filter and yields the plain user-scoped list; a present non-empty
parameter must consist of integer segments — one bad segment raises an
uncaught `ValueError` (a 500, not a 400), and all-good segments
succeed. -/
theorem id_filter_params_semantics (db : DB) (u : Nat) :
    (recipe_get_queryset db u none none =
        .ok (order_desc_distinct Recipe.id (db.recipes.filter (fun r => r.user == u)))
      ∧ recipe_get_queryset db u (some "") (some "") =
        .ok (order_desc_distinct Recipe.id (db.recipes.filter (fun r => r.user == u))))
    ∧ (∀ s ip, s ≠ "" →
        (∃ seg ∈ split_comma s, pythonInt seg = .error .valueError) →
        recipe_get_queryset db u (some s) ip = .error .valueError
        ∧ (recipe_list_view db u (some s) ip).1 = 500)
    ∧ (∀ s, s ≠ "" →
        (∃ seg ∈ split_comma s, pythonInt seg = .error .valueError) →
        recipe_get_queryset db u none (some s) = .error .valueError
        ∧ (recipe_list_view db u none (some s)).1 = 500)
    ∧ (∀ s, (∀ seg ∈ split_comma s, ∃ n, pythonInt seg = .ok n) →
        ∃ l, recipe_get_queryset db u (some s) none = .ok l) := by
  refine ⟨⟨rfl, rfl⟩, ?_, ?_, ?_⟩
  · intro s ip hs ⟨seg, hseg, hbad⟩
    have htr : truthy (some s) = true := by simp [truthy, hs]
    have herr : params_to_ints s = .error .valueError :=
      map_int_error_of_mem hseg hbad
    have hq : recipe_get_queryset db u (some s) ip = .error .valueError := by
      unfold recipe_get_queryset apply_tags_filter
      simp [htr, herr]
    exact ⟨hq, by simp [recipe_list_view, hq]⟩
  · intro s hs ⟨seg, hseg, hbad⟩
    have herr : params_to_ints s = .error .valueError :=
      map_int_error_of_mem hseg hbad
    have hq : recipe_get_queryset db u none (some s) = .error .valueError := by
      unfold recipe_get_queryset apply_tags_filter apply_ingredients_filter
      simp [truthy, hs, herr]
    exact ⟨hq, by simp [recipe_list_view, hq]⟩
  · intro s hall
    obtain ⟨ids, hids⟩ := map_int_ok_of_all hall
    by_cases hse : s = ""
    · subst hse
      exact ⟨_, rfl⟩
    · refine ⟨order_desc_distinct Recipe.id
          ((filter_m2m_tags db.recipes ids).filter (fun r => r.user == u)), ?_⟩
      unfold recipe_get_queryset apply_tags_filter apply_ingredients_filter
      simp [truthy, hse, params_to_ints, hids]

/-- C10 witness: `tags=1,x` raises `ValueError` (500); `tags=1,2`
parses; an omitted parameter returns the user-scoped list. -/
theorem id_filter_params_witness :
    recipe_get_queryset dbW 1 (some "1,x") none = .error .valueError
    ∧ (recipe_list_view dbW 1 (some "1,x") none).1 = 500
    ∧ (∃ l, recipe_get_queryset dbW 1 (some "1,2") none = .ok l)
    ∧ recipe_get_queryset dbW 1 none none =
        .ok (order_desc_distinct Recipe.id (dbW.recipes.filter (fun r => r.user == 1))) := by
  have h := id_filter_params_semantics dbW 1
  have hbad := h.2.1 "1,x" none (by decide) ⟨"x", by decide, rfl⟩
  refine ⟨hbad.1, hbad.2, ?_, h.1.1⟩
  refine h.2.2.2 "1,2" ?_
  intro seg hseg
  have hsplit : split_comma "1,2" = ["1", "2"] := rfl
  rw [hsplit] at hseg
  have : seg = "1" ∨ seg = "2" := by simpa using hseg
  rcases this with rfl | rfl
  · exact ⟨1, rfl⟩
  · exact ⟨2, rfl⟩

/-- `RecipeSerializer.update` always produces a row with the instance's
id, user and ingredient set, written back by primary key into a store
whose recipe and ingredient tables it did not otherwise touch. -/
theorem recipe_serializer_update_shape (db : DB) (u : Nat) (r : Recipe)
    (vd : ValidatedRecipeData) :
    ∃ r2 db1, recipe_serializer_update db u r vd = (r2, save_recipe db1 r2)
      ∧ r2.id = r.id ∧ r2.user = r.user ∧ r2.ingredients = r.ingredients
      ∧ db1.recipes = db.recipes ∧ db1.ingredients = db.ingredients := by
  unfold recipe_serializer_update
  cases htags : vd.tags with
  | none => exact ⟨set_attrs r vd, db, rfl, rfl, rfl, rfl, rfl, rfl⟩
  | some names =>
    have hfr := get_or_create_tags_frame names u { r with tags := [] } db
    rcases hG : get_or_create_tags names u { r with tags := [] } db with ⟨rs, dbs⟩
    rw [hG] at hfr
    simp only [hG]
    exact ⟨set_attrs rs vd, dbs, rfl, hfr.1, hfr.2.1, hfr.2.2.2.2.2.2.2.1,
      hfr.2.2.2.2.2.2.2.2.1, hfr.2.2.2.2.2.2.2.2.2⟩

/-- C8: a partial or full update of an existing recipe never changes any
recipe's (id, owner) pair — even when the raw payload carries a `user`
value — because `user` is not a declared serializer field. -/
theorem update_preserves_recipe_ownership
    (db : DB) (u pk : Nat) (tp ip : Option String) (p : RawRecipePayload)
    (hnodup : (db.recipes.map Recipe.id).Nodup) :
    ((recipe_update_view db u pk tp ip p).2.recipes.map (fun r => (r.id, r.user)))
      = db.recipes.map (fun r => (r.id, r.user)) := by
  rcases hq : recipe_get_queryset db u tp ip with e | qs
  · simp [recipe_update_view, hq]
  · rcases hobj : get_object Recipe.id qs pk with _ | r
    · simp [recipe_update_view, hq, hobj]
    · have hmem : r ∈ db.recipes :=
        (mem_recipe_get_queryset hq (List.mem_of_find?_eq_some hobj)).1
      obtain ⟨r2, db1, heq, hid, huser, -, hrec, -⟩ :=
        recipe_serializer_update_shape db u r (to_internal_value p)
      simp only [recipe_update_view, hq, hobj, heq]
      unfold save_recipe
      simp only [hrec]
      exact save_map_eq (fun x => (x.id, x.user)) hmem hnodup hid
        (by rw [Prod.mk.injEq]; exact ⟨hid, huser⟩)

/-- C8 witness: patching user 1's recipe 10 with a payload that sets
`user` to 2 (and a new title) leaves the (id, owner) pairs intact. -/
theorem update_preserves_ownership_witness :
    ((recipe_update_view dbPepper 1 10 none none
        { title := some "New", user := some 2 }).2.recipes.map
          (fun r => (r.id, r.user)))
      = dbPepper.recipes.map (fun r => (r.id, r.user)) :=
  update_preserves_recipe_ownership dbPepper 1 10 none none
    { title := some "New", user := some 2 } (by decide)

/-- C2 (where the code diverges from the claim): an update request never
modifies any recipe's ingredient associations, whatever the payload — in
particular `"ingredients": []` does **not** clear them, because the
serializer declares no `ingredients` field and its `update` only handles
`tags`.  (The tags half of the claim does hold.) -/
theorem update_never_modifies_ingredient_associations
    (db : DB) (u pk : Nat) (tp ip : Option String) (p : RawRecipePayload)
    (hnodup : (db.recipes.map Recipe.id).Nodup) :
    ((recipe_update_view db u pk tp ip p).2.recipes.map Recipe.ingredients)
      = db.recipes.map Recipe.ingredients := by
  rcases hq : recipe_get_queryset db u tp ip with e | qs
  · simp [recipe_update_view, hq]
  · rcases hobj : get_object Recipe.id qs pk with _ | r
    · simp [recipe_update_view, hq, hobj]
    · have hmem : r ∈ db.recipes :=
        (mem_recipe_get_queryset hq (List.mem_of_find?_eq_some hobj)).1
      obtain ⟨r2, db1, heq, hid, -, hing, hrec, -⟩ :=
        recipe_serializer_update_shape db u r (to_internal_value p)
      simp only [recipe_update_view, hq, hobj, heq]
      unfold save_recipe
      simp only [hrec]
      exact save_map_eq Recipe.ingredients hmem hnodup hid hing

/-- C2 witness: patching recipe 10 (attached to ingredient 5) with
`ingredients: []` answers 200 but leaves the association `[5]` in place,
contradicting `test_clear_recipe_ingredients`; patching `tags: []` does
clear the tag set. -/
theorem update_empty_ingredients_witness :
    ((recipe_update_view dbPepper 1 10 none none
        { ingredients := some ([] : List String) }).2.recipes.map Recipe.ingredients)
      = dbPepper.recipes.map Recipe.ingredients
    ∧ dbPepper.recipes.map Recipe.ingredients = [[5]]
    ∧ (recipe_update_view dbPepper 1 10 none none
        { ingredients := some ([] : List String) }).1 = 200
    ∧ (recipe_update_view dbPepper 1 10 none none
        { tags := some ([] : List String) }).2.recipes.map Recipe.tags = [[]] := by
  refine ⟨?_, by decide, by decide, by decide⟩
  exact update_never_modifies_ingredient_associations dbPepper 1 10 none none
    { ingredients := some ([] : List String) } (by decide)

/-- `RecipeSerializer.create` always yields a recipe with an empty
ingredient set and leaves the ingredient table untouched. -/
theorem recipe_serializer_create_shape (db : DB) (u : Nat) (vd : ValidatedRecipeData) :
    ∃ r2 db2, recipe_serializer_create db u vd = (r2, db2)
      ∧ r2.ingredients = [] ∧ r2.user = u
      ∧ db2.ingredients = db.ingredients ∧ db2.recipes = db.recipes ++ [r2] := by
  unfold recipe_serializer_create
  have hfr := get_or_create_tags_frame (vd.tags.getD []) u (new_recipe db u vd)
    { db with nextRecipeId := db.nextRecipeId + 1 }
  rcases hG : get_or_create_tags (vd.tags.getD []) u (new_recipe db u vd)
      { db with nextRecipeId := db.nextRecipeId + 1 } with ⟨rs, dbs⟩
  rw [hG] at hfr
  simp only [hG]
  refine ⟨rs, { dbs with recipes := dbs.recipes ++ [rs] }, rfl,
    hfr.2.2.2.2.2.2.2.1.trans rfl, hfr.2.1.trans rfl,
    hfr.2.2.2.2.2.2.2.2.2.trans rfl, ?_⟩
  rw [hfr.2.2.2.2.2.2.2.2.1]

/-- C1 (where the code diverges from the claim): recipe creation resolves
inline **tags** by (user, name) get-or-create and associates them, but it
silently drops inline **ingredients**: the created recipe always has an
empty ingredient set and no ingredient record is ever created, because
`RecipeSerializer` declares no `ingredients` field. -/
theorem create_resolves_tags_but_drops_ingredients
    (db : DB) (u : Nat) (p : RawRecipePayload) :
    ((recipe_create_view db u p).2.1.ingredients = []
      ∧ (recipe_create_view db u p).2.2.ingredients = db.ingredients)
    ∧ ((recipe_create_view emptyDB 1 payloadNested).2.2.tags
        = [⟨1, 1, "Lunch"⟩, ⟨2, 1, "Heavy"⟩]
      ∧ (recipe_create_view emptyDB 1 payloadNested).2.1.tags = [1, 2]
      ∧ (recipe_create_view emptyDB 1 payloadNested).2.2.ingredients = []) := by
  constructor
  · obtain ⟨r2, db2, heq, hing, -, hdbi, -⟩ :=
      recipe_serializer_create_shape db u (to_internal_value p)
    simp only [recipe_create_view, heq]
    exact ⟨hing, hdbi⟩
  · exact ⟨by decide, by decide, by decide⟩

/-- C4 (where the code diverges from the claim): `recipe/serializers.py`
defines no `RecipeImageSerializer`, so `get_serializer_class` raises
`AttributeError` for the upload-image action and every upload-image
request on an existing own recipe — invalid **or** valid image — answers
500, never the claimed 400 with field-level errors. -/
theorem upload_image_missing_serializer (db : DB) (u pk : Nat) (p : ImagePayload) :
    get_serializer_class "upload_image" = .error .attributeError
    ∧ (upload_image_view db u pk p = 500 ∨ upload_image_view db u pk p = 404)
    ∧ upload_image_view dbPepper 1 10 ⟨some "InvalidImage.png", false⟩ = 500
    ∧ upload_image_view dbPepper 1 10 ⟨some "good.jpg", true⟩ = 500 := by
  refine ⟨rfl, ?_, by decide, by decide⟩
  unfold upload_image_view
  rcases hq : recipe_get_queryset db u none none with e | qs
  · simp [hq]
  · rcases hobj : get_object Recipe.id qs pk with _ | r
    · simp [hq, hobj]
    · simp [hq, hobj, get_serializer_class, recipe_serializers_module]

/-- `rsplitAt` finds nothing when the separator does not occur. -/
theorem rsplitAt_eq_none {c : Char} {l : List Char} (h : c ∉ l) :
    rsplitAt c l = none := by
  induction l with
  | nil => rfl
  | cons x xs ih =>
    have hx : ¬x = c := fun e => h (e ▸ List.mem_cons_self x xs)
    unfold rsplitAt
    rw [ih (fun m => h (List.mem_cons_of_mem x m))]
    simp [hx]

/-- `rsplitAt` splits at the last occurrence of the separator. -/
theorem rsplitAt_append {c : Char} (l : List Char) {r : List Char} (h : c ∉ r) :
    rsplitAt c (l ++ c :: r) = some (l, r) := by
  induction l with
  | nil =>
    rw [List.nil_append]
    unfold rsplitAt
    rw [rsplitAt_eq_none h]
    simp
  | cons x xs ih =>
    rw [List.cons_append]
    unfold rsplitAt
    rw [ih]

/-- C9: creating a user stores the email with the part after the last `@`
lower-cased and the local part byte-for-byte as given. -/
theorem created_user_email_domain_lowercased
    (locl domain : List Char) (pw : String) (h : '@' ∉ domain) :
    create_user (String.mk (locl ++ '@' :: domain)) pw =
      .ok { email := String.mk (locl ++ '@' :: domain.map Char.toLower)
            password := pw } := by
  unfold create_user
  have hne : ¬String.mk (locl ++ '@' :: domain) = "" := by
    intro he
    have hdata : locl ++ '@' :: domain = [] := congrArg String.data he
    simp at hdata
  rw [if_neg hne]
  unfold normalize_email
  have htl : (String.mk (locl ++ '@' :: domain)).toList = locl ++ '@' :: domain := rfl
  rw [htl, rsplitAt_append locl h]

/-- C9 witness: `TEST4@EXAMPLE.COM` is stored as `TEST4@example.com` —
the domain is lower-cased, the local part's case survives. -/
theorem created_user_email_witness :
    create_user "TEST4@EXAMPLE.COM" "Password123" =
      .ok { email := "TEST4@example.com", password := "Password123" } := by
  have h := created_user_email_domain_lowercased
    "TEST4".toList "EXAMPLE.COM".toList "Password123" (by decide)
  exact h
